import Mathlib

/-!
Verification of the jigsaw-puzzle generator and session engine.

The TypeScript sources are shallowly embedded:
* canvas/float geometry is modelled over `ℚ` (float literals read as the
  rationals the source text denotes);
* `Math.random()` is modelled as an explicit stream `ℕ → ℚ` of draws,
  consumed in the source's evaluation order;
* `Math.log`-based scoring is modelled over `ℝ` with `Real.log`;
* the React session state (`piecesById`, `trayOrder`, `placements`,
  `selectedPieceId`) is a record, and each handler a state transformer.
-/

namespace Puzzle

/-- Structure for `Grid` of `src/puzzle/types.ts`: `{rows, cols, count}`. -/
structure Grid where
  rows : ℕ
  cols : ℕ
  count : ℕ
deriving DecidableEq, Repr

/-- Function `clamp(n, min, max) = Math.max(min, Math.min(max, n))` of the
generator module, over `ℚ`. -/
def clamp (n lo hi : ℚ) : ℚ := max lo (min hi n)

/-- Structure for `EdgeSpec`: `{sign, widthF, neckF, skewF}`; `sign` is the
`EdgeType` `-1 | 0 | 1` (modelled as `ℤ`), the three factors are floats. -/
structure EdgeSpec where
  sign : ℤ
  widthF : ℚ
  neckF : ℚ
  skewF : ℚ
deriving DecidableEq, Repr

/-- Value `flat` of `pieceEdges`: `{sign: 0, widthF: 1, neckF: 1, skewF: 0}`. -/
def flatSpec : EdgeSpec := { sign := 0, widthF := 1, neckF := 1, skewF := 0 }

/-- Spread-with-negated-sign, `{...spec, sign: -spec.sign}`, as used for the
`top` and `left` edges in `pieceEdges`. -/
def negSpec (s : EdgeSpec) : EdgeSpec := { s with sign := -s.sign }

/-- Structure holding the two matrices returned by `buildEdges`:
`vEdges[r][c]` separates `(r,c)` from `(r,c+1)`, `hEdges[r][c]` separates
`(r,c)` from `(r+1,c)`. -/
structure Edges where
  vEdges : List (List EdgeSpec)
  hEdges : List (List EdgeSpec)
deriving DecidableEq, Repr

/-- Asserted array access `m[r]![c]!` on an `EdgeSpec` matrix (the source
asserts the entry exists; out-of-range reads fall back to a default, which
in-range reads never hit). -/
def getSpec (m : List (List EdgeSpec)) (r c : ℕ) : EdgeSpec :=
  ((m.getD r []).getD c flatSpec)

/-- Function `rand(min, max) = min + Math.random() * (max - min)`, with the
`Math.random()` draw `u ∈ [0,1)` made explicit. -/
def randIn (lo hi u : ℚ) : ℚ := lo + u * (hi - lo)

/-- Draw of one `EdgeSpec` object literal of `buildEdges`, consuming four
`Math.random()` values in source order (`sign`, `widthF`, `neckF`, `skewF`);
`k` is the number of specs drawn before this one on the stream `u`. -/
def mkSpec (u : ℕ → ℚ) (k : ℕ) : EdgeSpec :=
  { sign := if u (4 * k) < 1/2 then 1 else -1
    widthF := randIn (92/100) (106/100) (u (4 * k + 1))
    neckF := randIn (90/100) (112/100) (u (4 * k + 2))
    skewF := randIn (-1) 1 (u (4 * k + 3)) }

/-- Function `buildEdges(grid)`: `vEdges` is `rows × max(0, cols-1)` and
`hEdges` is `max(0, rows-1) × cols`, every entry drawn from the ambient
`Math.random()` stream `u` in row-major evaluation order (`vEdges` wholly
before `hEdges`). The source has no seed parameter: `u` stands for the
global generator's forthcoming draws. -/
def buildEdges (grid : Grid) (u : ℕ → ℚ) : Edges :=
  { vEdges := (List.range grid.rows).map fun r =>
      (List.range (grid.cols - 1)).map fun c => mkSpec u (r * (grid.cols - 1) + c)
    hEdges := (List.range (grid.rows - 1)).map fun r =>
      (List.range grid.cols).map fun c =>
        mkSpec u (grid.rows * (grid.cols - 1) + r * grid.cols + c) }

/-- Record of the four resolved edges of one piece. -/
structure PieceEdges where
  top : EdgeSpec
  right : EdgeSpec
  bottom : EdgeSpec
  left : EdgeSpec
deriving DecidableEq, Repr

/-- Function `pieceEdges(grid, edges, r, c)`: boundary edges are flat; the
`bottom`/`right` edges read the shared spec as stored; the `top`/`left`
edges read the neighbour's spec with the sign negated. -/
def pieceEdges (grid : Grid) (edges : Edges) (r c : ℕ) : PieceEdges :=
  { top := if r = 0 then flatSpec else negSpec (getSpec edges.hEdges (r - 1) c)
    bottom := if r = grid.rows - 1 then flatSpec else getSpec edges.hEdges r c
    left := if c = 0 then flatSpec else negSpec (getSpec edges.vEdges r (c - 1))
    right := if c = grid.cols - 1 then flatSpec else getSpec edges.vEdges r c }

/-- Skew effectively used when an edge is traced: the source computes
`dir = endX >= startX ? 1 : -1` and then
`skew = dir === 1 ? spec.skewF : -spec.skewF` — the stored `skewF` when
tracing in increasing direction, its negation otherwise. -/
def effSkew (start stop spec_skewF : ℚ) : ℚ :=
  if start ≤ stop then spec_skewF else -spec_skewF

/-- Trace of `hEdgeAbs(startX, endX, y, normalY, spec)` inside
`buildJigsawPath`: the sequence of points the canvas path runs through,
including the current point `(startX, y)` and, for each `bezierCurveTo`,
its two control points followed by its end point.  `tab` is the
protrusion depth budget of `buildJigsawPath`. -/
def hEdgeTrace (startX endX y normalY : ℚ) (spec : EdgeSpec) (tab : ℚ) :
    List (ℚ × ℚ) :=
  let dir : ℚ := if startX ≤ endX then 1 else -1
  let L : ℚ := |endX - startX|
  let xAt : ℚ → ℚ := fun u => startX + dir * u
  if spec.sign = 0 ∨ L ≤ 1/10000 then
    [(startX, y), (endX, y)]
  else
    let skew : ℚ := effSkew startX endX spec.skewF
    let centerU := L * (1/2 + clamp skew (-1) 1 * (6/100))
    let widthU := clamp (L * (42/100) * spec.widthF) (L * (34/100)) (L * (50/100))
    let neckU := clamp (widthU * (34/100) * spec.neckF) (widthU * (26/100)) (widthU * (42/100))
    let amp := clamp (tab * (92/100)) (tab * (78/100)) (tab * (105/100))
    let disp := normalY * (spec.sign : ℚ) * amp
    let shoulder := disp * (18/100)
    let aU := clamp (centerU - widthU / 2) (L * (14/100)) (L * (86/100))
    let dU := clamp (centerU + widthU / 2) (L * (14/100)) (L * (86/100))
    let bU := centerU - neckU / 2
    let cU := centerU + neckU / 2
    [(startX, y),
     (xAt (L * (28/100)), y),
     (xAt aU, y),
     (xAt (aU + widthU * (10/100)), y),
     (xAt (bU - widthU * (10/100)), y),
     (xAt bU, y + shoulder),
     (xAt (bU + neckU * (6/100)), y + shoulder),
     (xAt (centerU - neckU * (62/100)), y + disp * (92/100)),
     (xAt centerU, y + disp),
     (xAt (centerU + neckU * (62/100)), y + disp * (92/100)),
     (xAt (cU - neckU * (6/100)), y + shoulder),
     (xAt cU, y + shoulder),
     (xAt (cU + widthU * (10/100)), y),
     (xAt (dU - widthU * (10/100)), y),
     (xAt dU, y),
     (xAt (L * (72/100)), y),
     (endX, y)]

/-- Trace of `vEdgeAbs(x, startY, endY, normalX, spec)`, the vertical twin
of `hEdgeAbs` (same shape with the two coordinates exchanged). -/
def vEdgeTrace (x startY endY normalX : ℚ) (spec : EdgeSpec) (tab : ℚ) :
    List (ℚ × ℚ) :=
  let dir : ℚ := if startY ≤ endY then 1 else -1
  let L : ℚ := |endY - startY|
  let yAt : ℚ → ℚ := fun u => startY + dir * u
  if spec.sign = 0 ∨ L ≤ 1/10000 then
    [(x, startY), (x, endY)]
  else
    let skew : ℚ := effSkew startY endY spec.skewF
    let centerU := L * (1/2 + clamp skew (-1) 1 * (6/100))
    let widthU := clamp (L * (42/100) * spec.widthF) (L * (34/100)) (L * (50/100))
    let neckU := clamp (widthU * (34/100) * spec.neckF) (widthU * (26/100)) (widthU * (42/100))
    let amp := clamp (tab * (92/100)) (tab * (78/100)) (tab * (105/100))
    let disp := normalX * (spec.sign : ℚ) * amp
    let shoulder := disp * (18/100)
    let aU := clamp (centerU - widthU / 2) (L * (14/100)) (L * (86/100))
    let dU := clamp (centerU + widthU / 2) (L * (14/100)) (L * (86/100))
    let bU := centerU - neckU / 2
    let cU := centerU + neckU / 2
    [(x, startY),
     (x, yAt (L * (28/100))),
     (x, yAt aU),
     (x, yAt (aU + widthU * (10/100))),
     (x, yAt (bU - widthU * (10/100))),
     (x + shoulder, yAt bU),
     (x + shoulder, yAt (bU + neckU * (6/100))),
     (x + disp * (92/100), yAt (centerU - neckU * (62/100))),
     (x + disp, yAt centerU),
     (x + disp * (92/100), yAt (centerU + neckU * (62/100))),
     (x + shoulder, yAt (cU - neckU * (6/100))),
     (x + shoulder, yAt cU),
     (x, yAt (cU + widthU * (10/100))),
     (x, yAt (dU - widthU * (10/100))),
     (x, yAt dU),
     (x, yAt (L * (72/100))),
     (x, endY)]

/-- Loop body of `divisors(n)` in `src/puzzle/grid.ts`: for `i = 1` while
`i*i <= n`, when `n % i === 0` push `i` and, when distinct, `n / i`. -/
def divPushes (n : ℕ) : List ℕ :=
  (List.range n).flatMap fun j =>
    let i := j + 1
    if i * i ≤ n ∧ n % i = 0 then (if i ≠ n / i then [i, n / i] else [i]) else []

/-- Ascending insertion used to model `out.sort((a, b) => a - b)`. -/
def insertAsc (x : ℕ) : List ℕ → List ℕ
  | [] => [x]
  | y :: ys => if x ≤ y then x :: y :: ys else y :: insertAsc x ys

/-- Ascending sort used to model `out.sort((a, b) => a - b)` (the JS sort
returns the ascending reordering; on the duplicate-free push list the
result is independent of the sorting algorithm). -/
def sortAsc : List ℕ → List ℕ
  | [] => []
  | x :: xs => insertAsc x (sortAsc xs)

/-- Function `divisors(n)` of `src/puzzle/grid.ts`. -/
def divisors (n : ℕ) : List ℕ := sortAsc (divPushes n)

/-- Accumulator `best = {rows, cols, score}` of `findBestGrid`; the score
starts at `Number.POSITIVE_INFINITY`, modelled as `⊤` in `WithTop ℝ`. -/
structure BestAcc where
  rows : ℕ
  cols : ℕ
  score : WithTop ℝ

/-- Loop body of `findBestGrid`: score the pair
`(rows=d, cols=pieceCount/d)` by `|Math.log((cols/rows)/imageAspect)|`
and keep it when strictly better than the accumulator. -/
noncomputable def bestStep (pieceCount : ℕ) (imageAspect : ℝ)
    (best : BestAcc) (d : ℕ) : BestAcc :=
  let rows := d
  let cols := pieceCount / d
  let score : ℝ := |Real.log (((cols : ℝ) / (rows : ℝ)) / imageAspect)|
  if (score : WithTop ℝ) < best.score then ⟨rows, cols, (score : WithTop ℝ)⟩ else best

/-- Function `findBestGrid(pieceCount, imageAspect)` of
`src/puzzle/grid.ts`: scan the divisors `d` ascending, keep the strictly
best-scoring pair, then swap orientation when the swapped pair scores
strictly better. -/
noncomputable def findBestGrid (pieceCount : ℕ) (imageAspect : ℝ) : Grid :=
  let best : BestAcc := (divisors pieceCount).foldl
    (bestStep pieceCount imageAspect) ⟨1, pieceCount, ⊤⟩
  if |Real.log (((best.cols : ℝ) / (best.rows : ℝ)) / imageAspect)| >
      |Real.log (((best.rows : ℝ) / (best.cols : ℝ)) / imageAspect)| then
    { rows := best.cols, cols := best.rows, count := pieceCount }
  else
    { rows := best.rows, cols := best.cols, count := pieceCount }

/-- Scale factor of `generatePieces`:
`scale = Math.min(1, maxBoardPx / Math.max(naturalW, naturalH))` with
`maxBoardPx = 900`. -/
def scaleOf (naturalW naturalH : ℕ) : ℚ :=
  min 1 (900 / (max naturalW naturalH : ℚ))

/-- Output tile width of `generatePieces`:
`outTileW = Math.max(10, Math.floor(tileW * scale))` with
`tileW = naturalW / grid.cols`. -/
def outTileW (naturalW naturalH : ℕ) (g : Grid) : ℤ :=
  max 10 ⌊((naturalW : ℚ) / (g.cols : ℚ)) * scaleOf naturalW naturalH⌋

/-- Output tile height of `generatePieces`:
`outTileH = Math.max(10, Math.floor(tileH * scale))` with
`tileH = naturalH / grid.rows`. -/
def outTileH (naturalW naturalH : ℕ) (g : Grid) : ℤ :=
  max 10 ⌊((naturalH : ℚ) / (g.rows : ℚ)) * scaleOf naturalW naturalH⌋

/-- Padding of `generatePieces`:
`pad = Math.max(6, Math.floor(Math.min(outTileW, outTileH) * 0.18))`. -/
def padOf (naturalW naturalH : ℕ) (g : Grid) : ℤ :=
  max 6 ⌊((min (outTileW naturalW naturalH g) (outTileH naturalW naturalH g) : ℚ) * (18/100))⌋

/-- Outlined-asset width of `generatePieces`: `outW = outTileW + pad * 2`. -/
def outWOf (naturalW naturalH : ℕ) (g : Grid) : ℤ :=
  outTileW naturalW naturalH g + padOf naturalW naturalH g * 2

/-- Outlined-asset height of `generatePieces`: `outH = outTileH + pad * 2`. -/
def outHOf (naturalW naturalH : ℕ) (g : Grid) : ℤ :=
  outTileH naturalW naturalH g + padOf naturalW naturalH g * 2

/-- Record of the clamped source-rectangle read and compensated destination
offset computed per tile inside `generatePieces`. -/
structure SrcRect where
  clampX0 : ℚ
  clampY0 : ℚ
  realW : ℚ
  realH : ℚ
  dx : ℚ
  dy : ℚ
deriving DecidableEq, Repr

/-- Source-rectangle computation of `generatePieces` for the tile at row
`r`, column `c`: the padded source window `src` is clamped to the image,
`realW/realH = Math.max(1, clamped extent)`, and the destination offset is
compensated by `(clampX0 - srcX) * scale` (resp. `y`). -/
def pieceSrcRect (naturalW naturalH : ℕ) (g : Grid) (r c : ℕ) : SrcRect :=
  let scale := scaleOf naturalW naturalH
  let tileW : ℚ := (naturalW : ℚ) / (g.cols : ℚ)
  let tileH : ℚ := (naturalH : ℚ) / (g.rows : ℚ)
  let pad : ℚ := (padOf naturalW naturalH g : ℚ)
  let padSrcX := pad / scale
  let padSrcY := pad / scale
  let srcX := (c : ℚ) * tileW - padSrcX
  let srcY := (r : ℚ) * tileH - padSrcY
  let srcW := tileW + padSrcX * 2
  let srcH := tileH + padSrcY * 2
  let clampX0 := clamp srcX 0 naturalW
  let clampY0 := clamp srcY 0 naturalH
  let clampX1 := clamp (srcX + srcW) 0 naturalW
  let clampY1 := clamp (srcY + srcH) 0 naturalH
  { clampX0 := clampX0
    clampY0 := clampY0
    realW := max 1 (clampX1 - clampX0)
    realH := max 1 (clampY1 - clampY0)
    dx := (clampX0 - srcX) * scale
    dy := (clampY0 - srcY) * scale }

/-- Structure for the session-relevant fields of a `Piece` (geometry and
asset fields are immutable after generation and omitted): `id`, `row`,
`col`, `rotation` (degrees, one of 0/90/180/270), `placed`. -/
structure Piece where
  id : ℕ
  row : ℕ
  col : ℕ
  rotation : ℕ
  placed : Bool
deriving DecidableEq, Repr

/-- Function `rotate90` of `App.tsx`: `0→90→180→270→0` (any other value is
unreachable for a `PieceRotation` and maps to 0). -/
def rotate90 (r : ℕ) : ℕ :=
  if r = 0 then 90 else if r = 90 then 180 else if r = 180 then 270 else 0

/-- Record of the React session state owned by `App`: `piecesById` (indexed
by piece id), `trayOrder`, `placements` (`pieceId | null` per cell),
`selectedPieceId`, the current `grid` and the `rotationEnabled` setting. -/
structure SessionState where
  piecesById : List Piece
  trayOrder : List ℕ
  placements : List (Option ℕ)
  selectedPieceId : Option ℕ
  grid : Option Grid
  rotationEnabled : Bool
deriving DecidableEq, Repr

/-- Board flash feedback values `"good" | "bad" | "warn"`. -/
inductive Feedback
  | good
  | bad
  | warn
deriving DecidableEq, Repr

/-- Update of one entry of `piecesById` as `setPiecesById` does it: copy
the array and replace index `pieceId` when present (`if (!p) return prev`). -/
def updatePiece (l : List Piece) (pieceId : ℕ) (f : Piece → Piece) : List Piece :=
  match l[pieceId]? with
  | none => l
  | some p => l.set pieceId (f p)

/-- Function `placePiece(pieceId, cellIndex)` of `App.tsx`: mark the piece
placed, write it into `placements[cellIndex]`, and remove the first
occurrence of its id from `trayOrder` (`removeFromArray`). -/
def placePiece (s : SessionState) (pieceId cellIndex : ℕ) : SessionState :=
  { s with
    piecesById := updatePiece s.piecesById pieceId fun p => { p with placed := true }
    placements := s.placements.set cellIndex (some pieceId)
    trayOrder := s.trayOrder.erase pieceId }

/-- Function `unplacePiece(pieceId)` of `App.tsx`: clear the placed flag
when the piece exists and is placed, null the first `placements` entry
holding the id (`findIndex`), and prepend the id to `trayOrder` unless it
is already there. -/
def unplacePiece (s : SessionState) (pieceId : ℕ) : SessionState :=
  { s with
    piecesById :=
      match s.piecesById[pieceId]? with
      | none => s.piecesById
      | some p =>
        if p.placed then s.piecesById.set pieceId { p with placed := false }
        else s.piecesById
    placements :=
      match s.placements.findIdx? (fun x => x = some pieceId) with
      | none => s.placements
      | some idx => s.placements.set idx none
    trayOrder :=
      if pieceId ∈ s.trayOrder then s.trayOrder else pieceId :: s.trayOrder }

/-- Function `solvePuzzle()` of `App.tsx`: when a grid exists, force every
piece to `rotation 0, placed`, set `placements[i] = i`, empty the tray and
clear the selection (the `flash("good")` feedback is not part of the
state). -/
def solvePuzzle (s : SessionState) : SessionState :=
  match s.grid with
  | none => s
  | some g =>
    { s with
      piecesById := s.piecesById.map fun p => { p with rotation := 0, placed := true }
      placements := (List.range g.count).map some
      trayOrder := []
      selectedPieceId := none }

/-- Function `rotatePiece90(pieceId)` of `App.tsx` (via
`setPieceRotation`). -/
def rotatePiece90 (s : SessionState) (pieceId : ℕ) : SessionState :=
  { s with
    piecesById := updatePiece s.piecesById pieceId fun p =>
      { p with rotation := rotate90 p.rotation } }

/-- Function `tryPlaceSelectedAtCell(cellIdx)` of `App.tsx` (the later
revision, lines 1420-1446): guards return the state unchanged with no
flash; a correct cell that is empty or already holds the piece places it
(unless already there), then either warns and keeps the selection (wrong
rotation while rotation is enabled) or flashes good and clears the
selection; anything else flashes bad and changes nothing. -/
def tryPlaceSelectedAtCell (s : SessionState) (cellIdx : ℕ) :
    SessionState × Option Feedback :=
  match s.grid with
  | none => (s, none)
  | some _ =>
    match s.selectedPieceId with
    | none => (s, none)
    | some selId =>
      match s.piecesById[selId]? with
      | none => (s, none)
      | some piece =>
        let isCorrectCell := piece.id = cellIdx
        let isSameAlreadyThere := s.placements.getD cellIdx none = some piece.id
        let cellEmpty := s.placements.getD cellIdx none = none
        let rotationOk := s.rotationEnabled = false ∨ piece.rotation = 0
        if isCorrectCell ∧ (cellEmpty ∨ isSameAlreadyThere) then
          let s1 := if isSameAlreadyThere then s else placePiece s piece.id cellIdx
          if s.rotationEnabled = true ∧ ¬rotationOk then
            (s1, some Feedback.warn)
          else
            ({ s1 with selectedPieceId := none }, some Feedback.good)
        else
          (s, some Feedback.bad)

/-- Step relation of the session engine: the discrete actions the
interface dispatches — select, attempt placement, unplace, solve-all,
tray reshuffle (`shuffleInPlace` produces some permutation of the current
tray), rotate. -/
inductive Step : SessionState → SessionState → Prop
  | select (s : SessionState) (pid : Option ℕ) :
      Step s { s with selectedPieceId := pid }
  | attemptPlace (s : SessionState) (cellIdx : ℕ) :
      Step s (tryPlaceSelectedAtCell s cellIdx).1
  | unplace (s : SessionState) (pid : ℕ) :
      Step s (unplacePiece s pid)
  | solveAll (s : SessionState) :
      Step s (solvePuzzle s)
  | reshuffle (s : SessionState) (l : List ℕ) (h : l.Perm s.trayOrder) :
      Step s { s with trayOrder := l }
  | rotate (s : SessionState) (pid : ℕ) :
      Step s (rotatePiece90 s pid)

/-- Reachability through session steps. -/
def Reachable (s t : SessionState) : Prop := Relation.ReflTransGen Step s t

/-- Initial session state as `loadPuzzleFromModal` builds it: `count`
pieces indexed by id, `placements = Array(count).fill(null)`, the tray a
shuffled permutation of the ids `0..count-1`, and the grid carrying
`count`. -/
def InitState (count : ℕ) (s : SessionState) : Prop :=
  s.placements = List.replicate count none ∧
  s.trayOrder.Perm (List.range count) ∧
  s.piecesById.length = count ∧
  (∀ (i : ℕ) (p : Piece), s.piecesById[i]? = some p → p.id = i) ∧
  (∀ g, s.grid = some g → g.count = count)

/-- Session invariant carried through every step: placements have fixed
length `count`; an occupied cell holds exactly its own index; every id
below `count` is either placed on its own cell and absent from the tray,
or unplaced and in the tray exactly once; `piecesById` is indexed by id;
the grid count matches. -/
def Inv (count : ℕ) (s : SessionState) : Prop :=
  s.placements.length = count ∧
  (∀ (i pid : ℕ), s.placements[i]? = some (some pid) → pid = i) ∧
  (∀ pid, pid < count →
    (s.placements[pid]? = some (some pid) ∧ pid ∉ s.trayOrder) ∨
    (s.placements[pid]? = some none ∧ s.trayOrder.count pid = 1)) ∧
  s.piecesById.length = count ∧
  (∀ (i : ℕ) (p : Piece), s.piecesById[i]? = some p → p.id = i) ∧
  (∀ g, s.grid = some g → g.count = count)

/-- Tab contour point sequence as the specification words it (second
definition for comparison with the source's `hEdgeTrace`): tab center
`L*(0.5 + clamp(skew,-1,1)*0.06)`, head width
`clamp(L*0.42*widthF, 0.34*L, 0.50*L)`, neck width
`clamp(headWidth*0.34*neckF, 0.26*headWidth, 0.42*headWidth)`,
displacement magnitude `clamp(tab*0.92, 0.78*tab, 1.05*tab)` directed by
`sign`, for an edge traced in increasing-coordinate direction. -/
def specTabContour (startX y ny : ℚ) (spec : EdgeSpec) (L tab : ℚ) :
    List (ℚ × ℚ) :=
  let center := L * (1/2 + clamp spec.skewF (-1) 1 * (6/100))
  let head := clamp (L * (42/100) * spec.widthF) ((34/100) * L) ((50/100) * L)
  let neck := clamp (head * (34/100) * spec.neckF) ((26/100) * head) ((42/100) * head)
  let amp := clamp (tab * (92/100)) ((78/100) * tab) ((105/100) * tab)
  let disp := ny * (spec.sign : ℚ) * amp
  let shoulder := disp * (18/100)
  let aU := clamp (center - head / 2) ((14/100) * L) ((86/100) * L)
  let dU := clamp (center + head / 2) ((14/100) * L) ((86/100) * L)
  let bU := center - neck / 2
  let cU := center + neck / 2
  [(startX, y),
   (startX + (28/100) * L, y),
   (startX + aU, y),
   (startX + (aU + head * (10/100)), y),
   (startX + (bU - head * (10/100)), y),
   (startX + bU, y + shoulder),
   (startX + (bU + neck * (6/100)), y + shoulder),
   (startX + (center - neck * (62/100)), y + disp * (92/100)),
   (startX + center, y + disp),
   (startX + (center + neck * (62/100)), y + disp * (92/100)),
   (startX + (cU - neck * (6/100)), y + shoulder),
   (startX + cU, y + shoulder),
   (startX + (cU + head * (10/100)), y),
   (startX + (dU - head * (10/100)), y),
   (startX + dU, y),
   (startX + (72/100) * L, y),
   (startX + L, y)]

/-- C7: for every non-flat edge of length `L` (traced in increasing
direction) with a spec and depth budget `tab > 0`, the traced tab of
`hEdgeAbs` uses center position `L*(0.5 + clamp(skew,-1,1)*0.06)`, head
width `clamp(L*0.42*widthF, 0.34*L, 0.50*L)`, neck width
`clamp(headWidth*0.34*neckF, 0.26*headWidth, 0.42*headWidth)` and
displacement magnitude `clamp(tab*0.92, 0.78*tab, 1.05*tab)` directed by
`sign`: the emitted point sequence equals the spec-worded contour. -/
theorem hEdgeTrace_eq_specTabContour (spec : EdgeSpec) (startX y ny L tab : ℚ)
    (hsign : spec.sign ≠ 0) (hL : 1/10000 < L) (_htab : 0 < tab) :
    hEdgeTrace startX (startX + L) y ny spec tab = specTabContour startX y ny spec L tab := by
  have hL0 : (0 : ℚ) < L := lt_trans (by norm_num) hL
  have hdiff : startX + L - startX = L := by ring
  have habs : |startX + L - startX| = L := by rw [hdiff]; exact abs_of_pos hL0
  have hdir : startX ≤ startX + L := le_add_of_nonneg_right hL0.le
  rw [hEdgeTrace, specTabContour]
  simp only [habs, effSkew, if_pos hdir]
  rw [if_neg (by push_neg; exact ⟨hsign, by simpa [habs] using not_le.mpr hL⟩)]
  simp only [show L * (34/100) = (34/100) * L from by ring,
    show L * (50/100) = (50/100) * L from by ring,
    show L * (14/100) = (14/100) * L from by ring,
    show L * (86/100) = (86/100) * L from by ring,
    show tab * (78/100) = (78/100) * tab from by ring,
    show tab * (105/100) = (105/100) * tab from by ring]
  simp only [Prod.mk.injEq, List.cons.injEq]
  repeat' apply And.intro
  all_goals first | trivial | ring_nf

/-- Witness for C7 at a concrete input. -/
theorem hEdgeTrace_eq_specTabContour_witness :
    hEdgeTrace 0 (0 + 1) 0 1 ⟨1, 1, 1, 0⟩ 1 = specTabContour 0 0 1 ⟨1, 1, 1, 0⟩ 1 1 :=
  hEdgeTrace_eq_specTabContour ⟨1, 1, 1, 0⟩ 0 0 1 1 1 (by norm_num) (by norm_num) (by norm_num)

/-- C2 counterexample: the generation pipeline in the source draws from
the ambient global `Math.random()` — `buildEdges` has no seed parameter —
so two runs over the same grid whose ambient draws differ produce
different `EdgeSpec` matrices: the output is not a function of a seed. -/
theorem buildEdges_depends_on_ambient_draws :
    buildEdges ⟨1, 2, 2⟩ (fun _ => 0) ≠ buildEdges ⟨1, 2, 2⟩ (fun _ => 3/4) := by
  intro h
  have h2 := congrArg (fun e => ((e.vEdges.getD 0 []).getD 0 flatSpec).sign) h
  simp only [buildEdges, mkSpec, randIn] at h2
  norm_num [List.range_succ] at h2

/-- C2 amended: edge-spec generation is deterministic in the ambient
random stream it consumes — identical streams of `Math.random()` draws
yield identical `EdgeSpec` matrices for the same grid — though no seed
exists in the generator's interface. -/
theorem buildEdges_deterministic_in_stream (g : Grid) (u v : ℕ → ℚ)
    (h : ∀ i, u i = v i) : buildEdges g u = buildEdges g v := by
  rw [funext h]

/-- Witness for the amended C2 at a concrete input. -/
theorem buildEdges_deterministic_in_stream_witness :
    buildEdges ⟨2, 2, 4⟩ (fun _ => 0) = buildEdges ⟨2, 2, 4⟩ (fun _ => 0) :=
  buildEdges_deterministic_in_stream ⟨2, 2, 4⟩ (fun _ => 0) (fun _ => 0) (fun _ => rfl)

/-- C3: with a grid, a selected piece `piece` and a target cell `t`,
`tryPlaceSelectedAtCell` accepts iff `piece.id = t` and the cell is empty
or already holds that piece; on acceptance the piece ends up at the cell;
with rotation enabled and a nonzero rotation the feedback is the distinct
wrong-orientation signal and the selection is retained; full success
(good feedback, selection cleared) happens exactly when rotation is
disabled or the rotation is 0; any other target leaves the whole session
state unchanged with failure feedback. -/
theorem tryPlace_accepts_iff (s : SessionState) (g : Grid) (selId t : ℕ) (piece : Piece)
    (hg : s.grid = some g) (hsel : s.selectedPieceId = some selId)
    (hpc : s.piecesById[selId]? = some piece)
    (hlen : t < s.placements.length) :
    (((tryPlaceSelectedAtCell s t).2 = some Feedback.good ∨
        (tryPlaceSelectedAtCell s t).2 = some Feedback.warn) ↔
      (piece.id = t ∧
        (s.placements.getD t none = none ∨ s.placements.getD t none = some piece.id))) ∧
    ((piece.id = t ∧
        (s.placements.getD t none = none ∨ s.placements.getD t none = some piece.id)) →
      (tryPlaceSelectedAtCell s t).1.placements.getD t none = some piece.id ∧
      (s.rotationEnabled = true → piece.rotation ≠ 0 →
        (tryPlaceSelectedAtCell s t).2 = some Feedback.warn ∧
        (tryPlaceSelectedAtCell s t).1.selectedPieceId = s.selectedPieceId) ∧
      ((s.rotationEnabled = false ∨ piece.rotation = 0) →
        (tryPlaceSelectedAtCell s t).2 = some Feedback.good ∧
        (tryPlaceSelectedAtCell s t).1.selectedPieceId = none)) ∧
    (¬(piece.id = t ∧
        (s.placements.getD t none = none ∨ s.placements.getD t none = some piece.id)) →
      tryPlaceSelectedAtCell s t = (s, some Feedback.bad)) := by
  simp only [tryPlaceSelectedAtCell, hg, hsel, hpc, List.getD_eq_getElem?_getD]
  by_cases hacc : piece.id = t ∧
      (s.placements[t]?.getD none = none ∨ s.placements[t]?.getD none = some piece.id)
  · rw [if_pos hacc]
    have hput : (if s.placements[t]?.getD none = some piece.id then s
        else placePiece s piece.id t).placements[t]?.getD none = some piece.id := by
      by_cases hsame : s.placements[t]?.getD none = some piece.id
      · rw [if_pos hsame]; exact hsame
      · rw [if_neg hsame]
        simp only [placePiece]
        rcases hacc with ⟨hid, _⟩
        subst hid
        simp [List.getElem?_set_self hlen]
    by_cases hrot : s.rotationEnabled = true ∧ ¬(s.rotationEnabled = false ∨ piece.rotation = 0)
    · rw [if_pos hrot]
      refine ⟨⟨fun _ => hacc, fun _ => Or.inr rfl⟩, fun _ => ⟨hput, ?_, ?_⟩,
        fun h => absurd hacc h⟩
      · intro _ _
        exact ⟨rfl, by split_ifs <;> simp [placePiece, hsel]⟩
      · intro hok
        exact absurd hok hrot.2
    · rw [if_neg hrot]
      refine ⟨⟨fun _ => hacc, fun _ => Or.inl rfl⟩, fun _ => ⟨hput, ?_, ?_⟩,
        fun h => absurd hacc h⟩
      · intro hre hnr
        exact absurd ⟨hre, fun hok => hok.elim (fun h0 => by rw [hre] at h0; cases h0) hnr⟩ hrot
      · intro _
        exact ⟨rfl, rfl⟩
  · rw [if_neg hacc]
    refine ⟨⟨fun h => absurd hacc ?_, fun h => absurd h hacc⟩, fun h => absurd h hacc, fun _ => rfl⟩
    rcases h with h | h <;> cases h

/-- Concrete sample session used by witnesses: a 1×2 grid with both
pieces in the tray and piece 1 selected. -/
def sampleState : SessionState :=
  { piecesById := [⟨0, 0, 0, 0, false⟩, ⟨1, 0, 1, 0, false⟩]
    trayOrder := [1, 0]
    placements := [none, none]
    selectedPieceId := some 1
    grid := some ⟨1, 2, 2⟩
    rotationEnabled := true }

/-- Witness for C3 at a concrete input: on `sampleState`, piece 1 dropped
on cell 1. -/
theorem tryPlace_accepts_iff_witness :
    (((tryPlaceSelectedAtCell sampleState 1).2 = some Feedback.good ∨
        (tryPlaceSelectedAtCell sampleState 1).2 = some Feedback.warn) ↔
      ((1 : ℕ) = 1 ∧
        (sampleState.placements.getD 1 none = none ∨
          sampleState.placements.getD 1 none = some 1))) ∧
    (((1 : ℕ) = 1 ∧
        (sampleState.placements.getD 1 none = none ∨
          sampleState.placements.getD 1 none = some 1)) →
      (tryPlaceSelectedAtCell sampleState 1).1.placements.getD 1 none = some 1 ∧
      (sampleState.rotationEnabled = true → (0 : ℕ) ≠ 0 →
        (tryPlaceSelectedAtCell sampleState 1).2 = some Feedback.warn ∧
        (tryPlaceSelectedAtCell sampleState 1).1.selectedPieceId =
          sampleState.selectedPieceId) ∧
      ((sampleState.rotationEnabled = false ∨ (0 : ℕ) = 0) →
        (tryPlaceSelectedAtCell sampleState 1).2 = some Feedback.good ∧
        (tryPlaceSelectedAtCell sampleState 1).1.selectedPieceId = none)) ∧
    (¬((1 : ℕ) = 1 ∧
        (sampleState.placements.getD 1 none = none ∨
          sampleState.placements.getD 1 none = some 1)) →
      tryPlaceSelectedAtCell sampleState 1 = (sampleState, some Feedback.bad)) :=
  tryPlace_accepts_iff sampleState ⟨1, 2, 2⟩ 1 1 ⟨1, 0, 1, 0, false⟩ rfl rfl rfl
    (by decide)

lemma getElem?_lt_length {α : Type} {l : List α} {i : ℕ} {v : α} (h : l[i]? = some v) :
    i < l.length :=
  (List.getElem?_eq_some_iff.mp h).1

lemma getElem?_set_at {α : Type} {l : List α} {i : ℕ} (v : α) (h : i < l.length) :
    (l.set i v)[i]? = some v := by
  rw [List.getElem?_set_self h]

lemma getElem?_set_away {α : Type} (l : List α) {i j : ℕ} (v : α) (h : i ≠ j) :
    (l.set i v)[j]? = l[j]? :=
  List.getElem?_set_ne h

lemma not_mem_of_no_getElem? {α : Type} {l : List α} {v : α}
    (h : ∀ i : ℕ, l[i]? ≠ some v) : v ∉ l := by
  intro hm
  obtain ⟨i, hlt, hi⟩ := List.getElem_of_mem hm
  exact h i (by rw [List.getElem?_eq_getElem hlt]; exact congrArg some hi)

lemma updatePiece_length (l : List Piece) (pid : ℕ) (f : Piece → Piece) :
    (updatePiece l pid f).length = l.length := by
  rw [updatePiece]
  cases h : l[pid]? <;> simp

lemma updatePiece_ids {l : List Piece} {pid : ℕ} {f : Piece → Piece}
    (hf : ∀ p, (f p).id = p.id) (hl : ∀ (i : ℕ) (p : Piece), l[i]? = some p → p.id = i) :
    ∀ (i : ℕ) (p : Piece), (updatePiece l pid f)[i]? = some p → p.id = i := by
  intro i p hp
  rw [updatePiece] at hp
  rcases h : l[pid]? with _ | q
  · rw [h] at hp
    exact hl i p hp
  · rw [h] at hp
    by_cases hip : pid = i
    · subst hip
      rw [getElem?_set_at _ (getElem?_lt_length h)] at hp
      cases hp
      rw [hf q]
      exact hl pid q h
    · rw [getElem?_set_away _ _ hip] at hp
      exact hl i p hp

lemma count_eq_of_unique_idx {α : Type} [BEq α] [LawfulBEq α] :
    ∀ (l : List α) (v : α) (j : ℕ), (∀ i : ℕ, l[i]? = some v → i = j) →
      (l[j]? = some v → l.count v = 1) ∧ (l[j]? ≠ some v → l.count v = 0)
  | [], v, j, _ => by
    constructor
    · intro h'
      rw [List.getElem?_eq_none (by simp)] at h'
      cases h'
    · intro _
      simp
  | x :: xs, v, j, h => by
    by_cases hx : x = v
    · subst hx
      have hj : j = 0 := (h 0 (by simp)).symm
      subst hj
      have hnone : ∀ i : ℕ, xs[i]? ≠ some x := by
        intro i hi
        exact Nat.succ_ne_zero i (h (i + 1) (by simpa using hi))
      constructor
      · intro _
        rw [List.count_cons_self, List.count_eq_zero.mpr (not_mem_of_no_getElem? hnone)]
      · intro h'
        exact absurd (by simp) h'
    · rw [List.count_cons_of_ne (fun hv => hx hv.symm)]
      match j with
      | 0 =>
        have hnone : ∀ i : ℕ, xs[i]? ≠ some v := by
          intro i hi
          exact Nat.succ_ne_zero i (h (i + 1) (by simpa using hi))
        constructor
        · intro h'
          exact absurd (Option.some_injective _ (by simpa using h')) hx
        · intro _
          exact List.count_eq_zero.mpr (not_mem_of_no_getElem? hnone)
      | j + 1 =>
        have h' : ∀ i : ℕ, xs[i]? = some v → i = j := by
          intro i hi
          exact Nat.succ_injective (h (i + 1) (by simpa using hi))
        have ih := count_eq_of_unique_idx xs v j h'
        constructor
        · intro hj
          exact ih.1 (by simpa using hj)
        · intro hj
          exact ih.2 (by simpa using hj)

lemma inv_of_init {count : ℕ} {s : SessionState} (h : InitState count s) :
    Inv count s := by
  obtain ⟨hp, ht, hl, hi, hg⟩ := h
  refine ⟨by rw [hp]; exact List.length_replicate .., ?_, ?_, hl, hi, hg⟩
  · intro i pid hcell
    rw [hp] at hcell
    rcases lt_or_le i count with hlt | hge
    · rw [List.getElem?_replicate, if_pos hlt] at hcell
      cases hcell
    · rw [List.getElem?_eq_none (by simpa using hge)] at hcell
      cases hcell
  · intro pid hpid
    right
    constructor
    · rw [hp, List.getElem?_replicate, if_pos hpid]
    · rw [ht.count_eq]
      exact List.count_eq_one_of_mem (List.nodup_range count) (List.mem_range.mpr hpid)

lemma inv_placePiece {count : ℕ} {s : SessionState} {pid : ℕ}
    (hInv : Inv count s) (hpid : pid < count)
    (hempty : s.placements[pid]? = some none) :
    Inv count (placePiece s pid pid) := by
  obtain ⟨hlen, hcell, hpart, hplen, hpids, hgrid⟩ := hInv
  refine ⟨by simp [placePiece, hlen], ?_, ?_, ?_, ?_, hgrid⟩
  · intro i q hq
    simp only [placePiece] at hq
    by_cases hip : pid = i
    · subst hip
      rw [getElem?_set_at _ (by rw [hlen]; exact hpid)] at hq
      cases hq
      rfl
    · rw [getElem?_set_away _ _ hip] at hq
      exact hcell i q hq
  · intro q hq
    simp only [placePiece]
    by_cases hqp : q = pid
    · subst hqp
      left
      refine ⟨getElem?_set_at _ (by rw [hlen]; exact hpid), ?_⟩
      rcases hpart q hq with ⟨hocc, _⟩ | ⟨_, hcnt⟩
      · rw [hempty] at hocc
        cases hocc
      · have hz : (s.trayOrder.erase q).count q = 0 := by
          rw [List.count_erase_self, hcnt]
        exact List.count_eq_zero.mp hz
    · rcases hpart q hq with ⟨hocc, hmem⟩ | ⟨hocc, hcnt⟩
      · left
        exact ⟨by rw [getElem?_set_away _ _ (fun h => hqp h.symm)]; exact hocc,
          fun hm => hmem (List.mem_of_mem_erase hm)⟩
      · right
        exact ⟨by rw [getElem?_set_away _ _ (fun h => hqp h.symm)]; exact hocc,
          by rw [List.count_erase_of_ne hqp]; exact hcnt⟩
  · simp only [placePiece]
    rw [updatePiece_length]
    exact hplen
  · simp only [placePiece]
    exact updatePiece_ids (fun _ => rfl) hpids

lemma inv_unplacePiece {count : ℕ} {s : SessionState} (hInv : Inv count s)
    (pid : ℕ) : Inv count (unplacePiece s pid) := by
  obtain ⟨hlen, hcell, hpart, hplen, hpids, hgrid⟩ := hInv
  have hplen' : (unplacePiece s pid).piecesById.length = count := by
    simp only [unplacePiece]
    rcases h : s.piecesById[pid]? with _ | p
    · exact hplen
    · dsimp only
      split_ifs <;> simp [hplen]
  have hpids' : ∀ (i : ℕ) (p : Piece), (unplacePiece s pid).piecesById[i]? = some p →
      p.id = i := by
    simp only [unplacePiece]
    rcases h : s.piecesById[pid]? with _ | p
    · exact hpids
    · dsimp only
      split_ifs with hpl
      · intro i q hq
        by_cases hip : pid = i
        · subst hip
          rw [getElem?_set_at _ (getElem?_lt_length h)] at hq
          cases hq
          exact hpids pid p h
        · rw [getElem?_set_away _ _ hip] at hq
          exact hpids i q hq
      · exact hpids
  rcases hfind : s.placements.findIdx? (fun x => x = some pid) with _ | idx
  · -- no cell holds pid
    have hnocc : ∀ x ∈ s.placements, x ≠ some pid := by
      intro x hx
      have := List.findIdx?_eq_none_iff.mp hfind x hx
      simpa using this
    by_cases hmem : pid ∈ s.trayOrder
    · refine ⟨?_, ?_, ?_, hplen', hpids', ?_⟩ <;>
        simp only [unplacePiece, hfind, if_pos hmem]
      · exact hlen
      · exact hcell
      · exact hpart
      · exact hgrid
    · -- pid is nowhere: it cannot be < count, so prepending it keeps the partition
      have hbig : ¬ pid < count := by
        intro hq
        rcases hpart pid hq with ⟨hocc, _⟩ | ⟨_, hcnt⟩
        · exact hnocc _ (List.getElem?_mem hocc) rfl
        · exact hmem (List.count_pos_iff.mp (by rw [hcnt]; norm_num))
      refine ⟨?_, ?_, ?_, hplen', hpids', ?_⟩ <;>
        simp only [unplacePiece, hfind, if_neg hmem]
      · exact hlen
      · exact hcell
      · intro q hq
        have hqp : q ≠ pid := fun h => hbig (h ▸ hq)
        rcases hpart q hq with ⟨hocc, hm⟩ | ⟨hocc, hcnt⟩
        · exact Or.inl ⟨hocc, fun hm' => (List.mem_cons.mp hm').elim hqp hm⟩
        · exact Or.inr ⟨hocc, by rw [List.count_cons_of_ne hqp]; exact hcnt⟩
      · exact hgrid
  · -- cell idx holds pid, so idx = pid and pid < count
    obtain ⟨hidlt, hp, _⟩ := List.findIdx?_eq_some_iff_getElem.mp hfind
    have hocc : s.placements[idx]? = some (some pid) := by
      rw [List.getElem?_eq_getElem hidlt]
      exact congrArg some (by simpa using hp)
    have hip : idx = pid := (hcell idx pid hocc).symm
    subst hip
    have hqlt : idx < count := hlen ▸ hidlt
    have hnm : idx ∉ s.trayOrder := by
      rcases hpart idx hqlt with ⟨_, hm⟩ | ⟨he, _⟩
      · exact hm
      · rw [hocc] at he
        cases he
    refine ⟨?_, ?_, ?_, hplen', hpids', ?_⟩ <;>
      simp only [unplacePiece, hfind, if_neg hnm]
    · simp [hlen]
    · intro i q hq
      by_cases hii : idx = i
      · subst hii
        rw [getElem?_set_at _ hidlt] at hq
        cases hq
      · rw [getElem?_set_away _ _ hii] at hq
        exact hcell i q hq
    · intro q hq
      by_cases hqi : q = idx
      · subst hqi
        right
        refine ⟨getElem?_set_at _ hidlt, ?_⟩
        rw [List.count_cons_self, List.count_eq_zero.mpr hnm]
      · rcases hpart q hq with ⟨ho, hm⟩ | ⟨ho, hc⟩
        · left
          exact ⟨by rw [getElem?_set_away _ _ (fun h => hqi h.symm)]; exact ho,
            fun hm' => (List.mem_cons.mp hm').elim hqi hm⟩
        · right
          exact ⟨by rw [getElem?_set_away _ _ (fun h => hqi h.symm)]; exact ho,
            by rw [List.count_cons_of_ne hqi]; exact hc⟩
    · exact hgrid

lemma inv_solvePuzzle {count : ℕ} {s : SessionState} (hInv : Inv count s) :
    Inv count (solvePuzzle s) := by
  obtain ⟨hlen, hcell, hpart, hplen, hpids, hgrid⟩ := hInv
  rw [solvePuzzle]
  rcases hg : s.grid with _ | g
  · exact ⟨hlen, hcell, hpart, hplen, hpids, fun g' hg' => by rw [hg] at hg'; cases hg'⟩
  have hgc : g.count = count := hgrid g hg
  refine ⟨by simp [hgc], ?_, ?_, by simpa using hplen, ?_, fun g' hg' => by
    cases hg'; exact hgc⟩
  · intro i q hq
    rcases lt_or_le i g.count with hlt | hge
    · rw [List.getElem?_map, List.getElem?_range hlt] at hq
      cases hq
      rfl
    · rw [List.getElem?_eq_none (by simpa using hge)] at hq
      cases hq
  · intro q hq
    left
    constructor
    · rw [List.getElem?_map, List.getElem?_range (hgc ▸ hq)]
      rfl
    · simp
  · intro i q hq
    rw [List.getElem?_map] at hq
    rcases hm : s.piecesById[i]? with _ | p
    · rw [hm] at hq
      cases hq
    · rw [hm] at hq
      cases hq
      exact hpids i p hm

lemma inv_tryPlace {count : ℕ} {s : SessionState} (hInv : Inv count s)
    (cellIdx : ℕ) : Inv count (tryPlaceSelectedAtCell s cellIdx).1 := by
  rw [tryPlaceSelectedAtCell]
  rcases hg : s.grid with _ | g
  · exact hInv
  dsimp only
  rcases hsel : s.selectedPieceId with _ | selId
  · exact hInv
  dsimp only
  rcases hpc : s.piecesById[selId]? with _ | piece
  · exact hInv
  dsimp only
  by_cases hacc : piece.id = cellIdx ∧
      (s.placements.getD cellIdx none = none ∨
        s.placements.getD cellIdx none = some piece.id)
  · rw [if_pos hacc]
    have hs1 : Inv count (if s.placements.getD cellIdx none = some piece.id then s
        else placePiece s piece.id cellIdx) := by
      by_cases hsame : s.placements.getD cellIdx none = some piece.id
      · rw [if_pos hsame]
        exact hInv
      · rw [if_neg hsame]
        obtain ⟨hlen, hcell, hpart, hplen, hpids, hgrid⟩ := hInv
        have hid : piece.id = selId := hpids selId piece hpc
        have hlt : piece.id < count := by
          rw [hid]
          exact hplen ▸ getElem?_lt_length hpc
        have hcid : piece.id = cellIdx := hacc.1
        have hempty : s.placements[cellIdx]? = some none := by
          rcases hacc.2 with he | hsm
          · rcases ho : s.placements[cellIdx]? with _ | v
            · rw [← hcid] at ho
              rw [List.getElem?_eq_none_iff] at ho
              exact absurd (hlen ▸ hlt) (by rw [hcid] at *; omega)
            · rw [List.getD_eq_getElem?_getD, ho] at he
              cases he
              rfl
          · exact absurd hsm hsame
        rw [← hcid]
        exact inv_placePiece ⟨hlen, hcell, hpart, hplen, hpids, hgrid⟩ hlt
          (hcid ▸ hempty)
    split_ifs at hs1 ⊢ <;> exact hs1
  · rw [if_neg hacc]
    exact hInv

lemma inv_step {count : ℕ} {s s' : SessionState} (hInv : Inv count s)
    (h : Step s s') : Inv count s' := by
  cases h with
  | select pid => exact hInv
  | attemptPlace cellIdx => exact inv_tryPlace hInv cellIdx
  | unplace pid => exact inv_unplacePiece hInv pid
  | solveAll => exact inv_solvePuzzle hInv
  | reshuffle l hperm =>
    obtain ⟨hlen, hcell, hpart, hplen, hpids, hgrid⟩ := hInv
    refine ⟨hlen, hcell, ?_, hplen, hpids, hgrid⟩
    intro q hq
    rcases hpart q hq with ⟨ho, hm⟩ | ⟨ho, hc⟩
    · exact Or.inl ⟨ho, fun hm' => hm (hperm.mem_iff.mp hm')⟩
    · exact Or.inr ⟨ho, by rw [hperm.count_eq]; exact hc⟩
  | rotate pid =>
    obtain ⟨hlen, hcell, hpart, hplen, hpids, hgrid⟩ := hInv
    refine ⟨hlen, hcell, hpart, ?_, ?_, hgrid⟩
    · simp only [rotatePiece90]
      rw [updatePiece_length]
      exact hplen
    · simp only [rotatePiece90]
      exact updatePiece_ids (fun _ => rfl) hpids

lemma inv_of_reachable {count : ℕ} {s0 s : SessionState}
    (h0 : InitState count s0) (h : Reachable s0 s) : Inv count s := by
  induction h with
  | refl => exact inv_of_init h0
  | tail _ hstep ih => exact inv_step ih hstep

/-- C10: in every session state reachable from an initial state through
session steps, every occupied board cell holds exactly its own piece:
`placements[i]` is empty or equal to `i`. -/
theorem reachable_own_cell {count : ℕ} {s0 s : SessionState}
    (h0 : InitState count s0) (h : Reachable s0 s) :
    ∀ (i pid : ℕ), s.placements[i]? = some (some pid) → pid = i :=
  (inv_of_reachable h0 h).2.1

/-- C4: in every session state reachable from an initial state (all ids in
the shuffled tray, all placements empty), each piece id below `count`
appears in exactly one of `trayOrder` and the occupied `placements`
entries — the two occurrence counts always sum to one. -/
theorem reachable_partition {count : ℕ} {s0 s : SessionState}
    (h0 : InitState count s0) (h : Reachable s0 s) :
    ∀ pid, pid < count →
      s.trayOrder.count pid + s.placements.count (some pid) = 1 := by
  obtain ⟨hlen, hcell, hpart, _, _, _⟩ := inv_of_reachable h0 h
  intro pid hpid
  have huniq : ∀ i : ℕ, s.placements[i]? = some (some pid) → i = pid :=
    fun i hi => (hcell i pid hi).symm
  have hcnt := count_eq_of_unique_idx s.placements (some pid) pid huniq
  rcases hpart pid hpid with ⟨ho, hm⟩ | ⟨ho, hc⟩
  · rw [hcnt.1 ho, List.count_eq_zero.mpr hm]
  · rw [hcnt.2 (by rw [ho]; intro hx; cases hx), hc]

/-- Concrete one-piece initial session used by the reachability
witnesses. -/
def initState1 : SessionState :=
  { piecesById := [⟨0, 0, 0, 0, false⟩]
    trayOrder := [0]
    placements := [none]
    selectedPieceId := none
    grid := some ⟨1, 1, 1⟩
    rotationEnabled := true }

lemma initState1_init : InitState 1 initState1 := by
  refine ⟨rfl, by simp [List.range_succ, initState1], rfl, ?_, ?_⟩
  · intro i p hp
    match i, hp with
    | 0, hp => cases hp; rfl
  · intro g hg
    cases hg
    rfl

/-- Witness for C4 at a concrete input: the one-piece initial state
itself. -/
theorem reachable_partition_witness :
    initState1.trayOrder.count 0 + initState1.placements.count (some 0) = 1 :=
  reachable_partition initState1_init Relation.ReflTransGen.refl 0 (by norm_num)

/-- Witness for C10 at a concrete input: after `solvePuzzle` on the
one-piece initial state, cell 0 holds piece 0 and the invariant applies
to it. -/
theorem reachable_own_cell_witness :
    (solvePuzzle initState1).placements[0]? = some (some 0) ∧ (0 : ℕ) = 0 :=
  ⟨by decide,
    reachable_own_cell initState1_init
      (Relation.ReflTransGen.single (Step.solveAll initState1)) 0 0 (by decide)⟩

lemma mem_insertAsc {x y : ℕ} : ∀ {l : List ℕ}, y ∈ insertAsc x l ↔ y = x ∨ y ∈ l
  | [] => by simp [insertAsc]
  | z :: zs => by
    rw [insertAsc]
    split_ifs
    · simp
    · rw [List.mem_cons, mem_insertAsc (l := zs), List.mem_cons]
      tauto

lemma mem_sortAsc {y : ℕ} : ∀ {l : List ℕ}, y ∈ sortAsc l ↔ y ∈ l
  | [] => Iff.rfl
  | z :: zs => by
    rw [sortAsc, mem_insertAsc, mem_sortAsc (l := zs), List.mem_cons]

lemma mem_divisors {n x : ℕ} (h : x ∈ divisors n) : 1 ≤ x ∧ x ∣ n := by
  rw [divisors, mem_sortAsc, divPushes, List.mem_flatMap] at h
  obtain ⟨j, _, hx⟩ := h
  dsimp only at hx
  by_cases hc : (j + 1) * (j + 1) ≤ n ∧ n % (j + 1) = 0
  · rw [if_pos hc] at hx
    have hdvd : (j + 1) ∣ n := Nat.dvd_of_mod_eq_zero hc.2
    have hjn : j + 1 ≤ n := le_trans (Nat.le_mul_of_pos_left _ (Nat.succ_pos j)) hc.1
    split_ifs at hx
    · rcases List.mem_cons.mp hx with rfl | hx2
      · exact ⟨Nat.succ_pos j, hdvd⟩
      · rcases List.mem_singleton.mp hx2 with rfl
        exact ⟨Nat.div_pos hjn (Nat.succ_pos j),
          ⟨j + 1, (Nat.div_mul_cancel hdvd).symm⟩⟩
    · rcases List.mem_singleton.mp hx with rfl
      exact ⟨Nat.succ_pos j, hdvd⟩
  · rw [if_neg hc] at hx
    cases hx

lemma foldl_pres {α β : Type} (f : β → α → β) (P : β → Prop) :
    ∀ (l : List α) (b : β), P b → (∀ b x, x ∈ l → P b → P (f b x)) →
      P (l.foldl f b)
  | [], b, hb, _ => hb
  | x :: xs, b, hb, hstep => by
    rw [List.foldl_cons]
    exact foldl_pres f P xs (f b x) (hstep b x (List.mem_cons_self x xs) hb)
      (fun b' y hy => hstep b' y (List.mem_cons_of_mem x hy))

lemma findBestGrid_shape {N : ℕ} (A : ℝ) (hN : 1 ≤ N) :
    (findBestGrid N A).rows * (findBestGrid N A).cols = N ∧
      1 ≤ (findBestGrid N A).rows ∧ 1 ≤ (findBestGrid N A).cols ∧
      (findBestGrid N A).count = N := by
  rw [findBestGrid]
  have hfold : ∀ b : BestAcc,
      b.rows * b.cols = N ∧ 1 ≤ b.rows ∧ 1 ≤ b.cols →
      ((divisors N).foldl (bestStep N A) b).rows *
          ((divisors N).foldl (bestStep N A) b).cols = N ∧
        1 ≤ ((divisors N).foldl (bestStep N A) b).rows ∧
        1 ≤ ((divisors N).foldl (bestStep N A) b).cols := by
    intro b hb
    refine foldl_pres (bestStep N A)
      (fun b => b.rows * b.cols = N ∧ 1 ≤ b.rows ∧ 1 ≤ b.cols) (divisors N) b hb ?_
    intro b' d hd hb'
    obtain ⟨hd1, hdvd⟩ := mem_divisors hd
    rw [bestStep]
    split_ifs
    · exact ⟨Nat.mul_div_cancel' hdvd, hd1,
        Nat.div_pos (Nat.le_of_dvd (lt_of_lt_of_le Nat.zero_lt_one hN) hdvd) hd1⟩
    · exact hb'
  have hres := hfold ⟨1, N, ⊤⟩ ⟨one_mul N, le_refl 1, hN⟩
  split_ifs
  · exact ⟨by rw [Nat.mul_comm]; exact hres.1, hres.2.2, hres.2.1, rfl⟩
  · exact ⟨hres.1, hres.2.1, hres.2.2, rfl⟩

lemma divisors_50 : divisors 50 = [1, 2, 5, 10, 25, 50] := by decide

lemma bestStep_50_1 :
    bestStep 50 2 ⟨1, 50, ⊤⟩ 1 = ⟨1, 50, (|Real.log 25| : ℝ)⟩ := by
  rw [bestStep]
  dsimp only
  rw [if_pos (WithTop.coe_lt_top _)]
  norm_num

lemma bestStep_50_2 :
    bestStep 50 2 ⟨1, 50, (|Real.log 25| : ℝ)⟩ 2 = ⟨2, 25, (|Real.log (25/4)| : ℝ)⟩ := by
  rw [bestStep]
  dsimp only
  rw [if_pos]
  · norm_num
  · have h1 : ((((50:ℕ) / 2 : ℕ) : ℝ) / ((2:ℕ) : ℝ)) / 2 = 25 / 4 := by norm_num
    rw [h1, WithTop.coe_lt_coe, abs_of_nonneg (Real.log_nonneg (by norm_num)),
      abs_of_nonneg (Real.log_nonneg (by norm_num))]
    exact Real.log_lt_log (by norm_num) (by norm_num)

lemma bestStep_50_5 :
    bestStep 50 2 ⟨2, 25, (|Real.log (25/4)| : ℝ)⟩ 5 = ⟨5, 10, ((0:ℝ) : WithTop ℝ)⟩ := by
  rw [bestStep]
  dsimp only
  have h1 : ((((50:ℕ) / 5 : ℕ) : ℝ) / ((5:ℕ) : ℝ)) / 2 = 1 := by norm_num
  rw [h1, Real.log_one, abs_zero, if_pos]
  rw [WithTop.coe_lt_coe, abs_of_nonneg (Real.log_nonneg (by norm_num))]
  exact Real.log_pos (by norm_num)

lemma bestStep_50_keep (d : ℕ) :
    bestStep 50 2 ⟨5, 10, ((0:ℝ) : WithTop ℝ)⟩ d = ⟨5, 10, ((0:ℝ) : WithTop ℝ)⟩ := by
  rw [bestStep]
  dsimp only
  rw [if_neg]
  rw [WithTop.coe_lt_coe]
  exact not_lt.mpr (abs_nonneg _)

lemma findBestGrid_50_2 : findBestGrid 50 2 = ⟨5, 10, 50⟩ := by
  rw [findBestGrid, divisors_50]
  simp only [List.foldl_cons, List.foldl_nil, bestStep_50_1, bestStep_50_2, bestStep_50_5,
    bestStep_50_keep]
  rw [if_neg]
  have h1 : (((10:ℕ) : ℝ) / ((5:ℕ) : ℝ)) / 2 = 1 := by norm_num
  rw [h1, Real.log_one, abs_zero]
  exact not_lt.mpr (abs_nonneg _)

/-- C5: for every requested count `N ≥ 1` and aspect `A > 0`,
`findBestGrid` returns a grid with `rows * cols = N`, `rows ≥ 1`,
`cols ≥ 1` and `count = N` (the requested count is never approximated);
concretely `findBestGrid 50 2` selects 5 rows × 10 columns. -/
theorem findBestGrid_exact (N : ℕ) (A : ℝ) (hN : 1 ≤ N) (_hA : (0:ℝ) < A) :
    (findBestGrid N A).rows * (findBestGrid N A).cols = N ∧
      1 ≤ (findBestGrid N A).rows ∧ 1 ≤ (findBestGrid N A).cols ∧
      (findBestGrid N A).count = N ∧
      findBestGrid 50 2 = ⟨5, 10, 50⟩ :=
  ⟨(findBestGrid_shape A hN).1, (findBestGrid_shape A hN).2.1,
    (findBestGrid_shape A hN).2.2.1, (findBestGrid_shape A hN).2.2.2,
    findBestGrid_50_2⟩

/-- Witness for C5 at a concrete input (`N = 50`, `A = 2`). -/
theorem findBestGrid_exact_witness :
    (findBestGrid 50 2).rows * (findBestGrid 50 2).cols = 50 ∧
      1 ≤ (findBestGrid 50 2).rows ∧ 1 ≤ (findBestGrid 50 2).cols ∧
      (findBestGrid 50 2).count = 50 ∧
      findBestGrid 50 2 = ⟨5, 10, 50⟩ :=
  findBestGrid_exact 50 2 (by norm_num) (by norm_num)

lemma findBestGrid_zero_eq : findBestGrid 0 1 = ⟨1, 0, 0⟩ := by
  have hdiv : divisors 0 = [] := by decide
  rw [findBestGrid, hdiv]
  simp only [List.foldl_nil]
  rw [if_neg]
  have h0 : (((0:ℕ) : ℝ) / ((1:ℕ) : ℝ)) / 1 = 0 := by norm_num
  have h1 : (((1:ℕ) : ℝ) / ((0:ℕ) : ℝ)) / 1 = 0 := by norm_num
  rw [h0, h1]
  exact lt_irrefl _

/-- C6 counterexample: nothing rejects a zero piece count before the grid
solver runs — `findBestGrid` is total, runs on count 0, and returns the
degenerate `Grid` with `rows = 1`, `cols = 0` (so a Grid value with
`cols < 1` is produced rather than any rejection). -/
theorem findBestGrid_zero_not_rejected :
    findBestGrid 0 1 = ⟨1, 0, 0⟩ ∧ ¬ 1 ≤ (findBestGrid 0 1).cols :=
  ⟨findBestGrid_zero_eq, by rw [findBestGrid_zero_eq]; norm_num⟩

/-- C6 amended: the core performs no input validation — the solver accepts
any input, and on requested count 0 it runs and produces the degenerate
grid `{rows 1, cols 0}` — while for every positive count and positive
aspect the produced `Grid` is complete (`rows ≥ 1`, `cols ≥ 1`,
`rows*cols = count`), and the piece counts the interface can request are
the fixed positive menu values. -/
theorem findBestGrid_no_validation (N : ℕ) (A : ℝ) (hN : 1 ≤ N) (_hA : (0:ℝ) < A) :
    (findBestGrid 0 1).cols = 0 ∧
      1 ≤ (findBestGrid N A).rows ∧ 1 ≤ (findBestGrid N A).cols ∧
      (findBestGrid N A).rows * (findBestGrid N A).cols = N :=
  ⟨by rw [findBestGrid_zero_eq], (findBestGrid_shape A hN).2.1,
    (findBestGrid_shape A hN).2.2.1, (findBestGrid_shape A hN).1⟩

/-- Witness for the amended C6 at a concrete input. -/
theorem findBestGrid_no_validation_witness :
    (findBestGrid 0 1).cols = 0 ∧
      1 ≤ (findBestGrid 50 2).rows ∧ 1 ≤ (findBestGrid 50 2).cols ∧
      (findBestGrid 50 2).rows * (findBestGrid 50 2).cols = 50 :=
  findBestGrid_no_validation 50 2 (by norm_num) (by norm_num)

lemma scaleOf_pos {W H : ℕ} (hW : 1 ≤ W) : 0 < scaleOf W H := by
  rw [scaleOf]
  have hm : (0 : ℚ) < (max W H : ℕ) := by
    have : 1 ≤ max W H := le_trans hW (Nat.le_max_left W H)
    exact_mod_cast this
  exact lt_min one_pos (by positivity)

lemma scaleOf_le_one (W H : ℕ) : scaleOf W H ≤ 1 := min_le_left _ _

lemma natCast_mul_scaleOf_le {W H : ℕ} (hW : 1 ≤ W) :
    (W : ℚ) * scaleOf W H ≤ 900 := by
  have hm1 : (1 : ℚ) ≤ (max W H : ℕ) := by
    have : 1 ≤ max W H := le_trans hW (Nat.le_max_left W H)
    exact_mod_cast this
  have hm0 : (0 : ℚ) < (max W H : ℕ) := lt_of_lt_of_le one_pos hm1
  have hWm : (W : ℚ) ≤ (max W H : ℕ) := by exact_mod_cast Nat.le_max_left W H
  rw [scaleOf, ← Nat.cast_max]
  rcases min_cases (1 : ℚ) (900 / (max W H : ℕ)) with ⟨hmin, hle⟩ | ⟨hmin, hlt⟩
  · rw [hmin, mul_one]
    have h900 : (max W H : ℕ) ≤ (900 : ℚ) := by
      have := (le_div_iff₀ hm0).mp hle
      linarith
    linarith
  · rw [hmin, mul_div_assoc']
    rw [div_le_iff₀ hm0]
    nlinarith

/-- C8 (amended): `pad = max(6, floor(min(outTileW,outTileH)*0.18))`, the
outlined asset is `outW × outH = (outTileW + 2·pad) × (outTileH + 2·pad)`,
and the output tile size is scaled by `min(1, 900/max(imageW,imageH))`;
the longer board dimension is capped at 900 output pixels whenever the
scaled tile size reaches the 10-pixel floor (when `floor(tile*scale)`
falls below 10, the floor of 10 output pixels per tile takes precedence
over the cap). -/
theorem generate_geometry_formulas (W H : ℕ) (g : Grid)
    (hW : 1 ≤ W) (_hH : 1 ≤ H) (hr : 1 ≤ g.rows) (hc : 1 ≤ g.cols) :
    padOf W H g = max 6 ⌊((min (outTileW W H g) (outTileH W H g) : ℚ) * (18/100))⌋ ∧
    outWOf W H g = outTileW W H g + 2 * padOf W H g ∧
    outHOf W H g = outTileH W H g + 2 * padOf W H g ∧
    (10 ≤ ⌊((W : ℚ) / (g.cols : ℚ)) * scaleOf W H⌋ →
      (g.cols : ℤ) * outTileW W H g ≤ 900) ∧
    (10 ≤ ⌊((H : ℚ) / (g.rows : ℚ)) * scaleOf W H⌋ →
      (g.rows : ℤ) * outTileH W H g ≤ 900) := by
  refine ⟨rfl, by rw [outWOf]; ring, by rw [outHOf]; ring, ?_, ?_⟩
  · intro hf
    rw [outTileW, max_eq_right hf]
    have hcols : (0 : ℚ) < (g.cols : ℚ) := by exact_mod_cast hc
    have hfl : ((⌊((W : ℚ) / (g.cols : ℚ)) * scaleOf W H⌋ : ℚ)) ≤
        ((W : ℚ) / (g.cols : ℚ)) * scaleOf W H := Int.floor_le _
    have hmul : ((g.cols : ℚ)) * ((⌊((W : ℚ) / (g.cols : ℚ)) * scaleOf W H⌋ : ℚ)) ≤
        (W : ℚ) * scaleOf W H := by
      calc ((g.cols : ℚ)) * ((⌊((W : ℚ) / (g.cols : ℚ)) * scaleOf W H⌋ : ℚ))
          ≤ (g.cols : ℚ) * (((W : ℚ) / (g.cols : ℚ)) * scaleOf W H) :=
            mul_le_mul_of_nonneg_left hfl hcols.le
        _ = (W : ℚ) * scaleOf W H := by
            field_simp
    have := le_trans hmul (natCast_mul_scaleOf_le hW)
    exact_mod_cast this
  · intro hf
    rw [outTileH, max_eq_right hf]
    have hrows : (0 : ℚ) < (g.rows : ℚ) := by exact_mod_cast hr
    have hfl : ((⌊((H : ℚ) / (g.rows : ℚ)) * scaleOf W H⌋ : ℚ)) ≤
        ((H : ℚ) / (g.rows : ℚ)) * scaleOf W H := Int.floor_le _
    have hmul : ((g.rows : ℚ)) * ((⌊((H : ℚ) / (g.rows : ℚ)) * scaleOf W H⌋ : ℚ)) ≤
        (H : ℚ) * scaleOf W H := by
      calc ((g.rows : ℚ)) * ((⌊((H : ℚ) / (g.rows : ℚ)) * scaleOf W H⌋ : ℚ))
          ≤ (g.rows : ℚ) * (((H : ℚ) / (g.rows : ℚ)) * scaleOf W H) :=
            mul_le_mul_of_nonneg_left hfl hrows.le
        _ = (H : ℚ) * scaleOf W H := by
            field_simp
    have hscale : (H : ℚ) * scaleOf W H ≤ 900 := by
      have hm1 : (1 : ℚ) ≤ (max W H : ℕ) := by
        have : 1 ≤ max W H := le_trans hW (Nat.le_max_left W H)
        exact_mod_cast this
      have hm0 : (0 : ℚ) < (max W H : ℕ) := lt_of_lt_of_le one_pos hm1
      have hHm : (H : ℚ) ≤ (max W H : ℕ) := by exact_mod_cast Nat.le_max_right W H
      rw [scaleOf, ← Nat.cast_max]
      rcases min_cases (1 : ℚ) (900 / (max W H : ℕ)) with ⟨hmin, hle⟩ | ⟨hmin, hlt⟩
      · rw [hmin, mul_one]
        have h900 : (max W H : ℕ) ≤ (900 : ℚ) := by
          have := (le_div_iff₀ hm0).mp hle
          linarith
        linarith
      · rw [hmin, mul_div_assoc']
        rw [div_le_iff₀ hm0]
        nlinarith
    have := le_trans hmul hscale
    exact_mod_cast this

/-- Witness for the amended C8 at a concrete input (a 900×600 image split
3×4, where the scaled tiles are far above the 10-pixel floor). -/
theorem generate_geometry_formulas_witness :
    padOf 900 600 ⟨3, 4, 12⟩ =
      max 6 ⌊((min (outTileW 900 600 ⟨3, 4, 12⟩) (outTileH 900 600 ⟨3, 4, 12⟩) : ℚ) *
        (18/100))⌋ ∧
    outWOf 900 600 ⟨3, 4, 12⟩ = outTileW 900 600 ⟨3, 4, 12⟩ + 2 * padOf 900 600 ⟨3, 4, 12⟩ ∧
    outHOf 900 600 ⟨3, 4, 12⟩ = outTileH 900 600 ⟨3, 4, 12⟩ + 2 * padOf 900 600 ⟨3, 4, 12⟩ ∧
    (10 ≤ ⌊((900 : ℚ) / ((4:ℕ) : ℚ)) * scaleOf 900 600⌋ →
      ((4:ℕ) : ℤ) * outTileW 900 600 ⟨3, 4, 12⟩ ≤ 900) ∧
    (10 ≤ ⌊((600 : ℚ) / ((3:ℕ) : ℚ)) * scaleOf 900 600⌋ →
      ((3:ℕ) : ℤ) * outTileH 900 600 ⟨3, 4, 12⟩ ≤ 900) :=
  generate_geometry_formulas 900 600 ⟨3, 4, 12⟩ (by norm_num) (by norm_num)
    (by norm_num) (by norm_num)

/-- C8 counterexample: on a 900×90 image split into the 10×100 grid that
`findBestGrid` picks for 1000 pieces at aspect 10, the longer board
dimension is `100 * outTileW = 1000 > 900` — the 10-pixel tile floor
overrides the 900-pixel board cap, so the cap stated by the claim is
violated. -/
theorem board_cap_violated :
    (100 : ℤ) * outTileW 900 90 ⟨10, 100, 1000⟩ = 1000 ∧
      ¬ (100 : ℤ) * outTileW 900 90 ⟨10, 100, 1000⟩ ≤ 900 := by
  have ht : outTileW 900 90 ⟨10, 100, 1000⟩ = 10 := by
    rw [outTileW, scaleOf]
    dsimp only
    have : ((900 : ℕ) : ℚ) / ((100 : ℕ) : ℚ) *
        min 1 (900 / (max ((900 : ℕ) : ℚ) ((90 : ℕ) : ℚ))) = 9 := by
      rw [show max ((900 : ℕ) : ℚ) ((90 : ℕ) : ℚ) = 900 from by norm_num]
      norm_num
    rw [this]
    have h9 : ⌊(9 : ℚ)⌋ = 9 := by norm_num
    rw [h9]
    norm_num
  rw [ht]
  norm_num

lemma clamp_window {Wq t p a : ℚ} (hW : 1 ≤ Wq) (hp : 6 ≤ p) (ht : 0 < t)
    (ha : 0 ≤ a) (hat : a + t ≤ Wq) :
    0 ≤ clamp (a - p) 0 Wq ∧
      1 ≤ clamp (a - p + (t + p * 2)) 0 Wq - clamp (a - p) 0 Wq ∧
      clamp (a - p + (t + p * 2)) 0 Wq ≤ Wq := by
  rw [clamp, clamp]
  refine ⟨le_max_left 0 _, ?_, max_le (by linarith) (min_le_left _ _)⟩
  have h1 : min Wq (a - p) = a - p := min_eq_right (by linarith)
  have h2 : max (0:ℚ) (min Wq (a - p + (t + p * 2))) = min Wq (a - p + (t + p * 2)) := by
    rcases min_cases Wq (a - p + (t + p * 2)) with ⟨hm2, _⟩ | ⟨hm2, _⟩ <;> rw [hm2] <;>
      apply max_eq_right <;> linarith
  rw [h1, h2]
  rcases min_cases Wq (a - p + (t + p * 2)) with ⟨hm2, hc2⟩ | ⟨hm2, hc2⟩ <;> rw [hm2] <;>
    rcases max_cases (0:ℚ) (a - p) with ⟨hx1, hx2⟩ | ⟨hx1, hx2⟩ <;> rw [hx1] <;> linarith

/-- C9: for every tile of the grid, the source rectangle read from the
bitmap in `generatePieces` stays inside `[0, imageW] × [0, imageH]` —
`clampX0 ≥ 0`, `clampX0 + realW ≤ imageW` and likewise vertically, even
for border tiles whose padded source window overhangs the image — and the
destination draw offset is `(clampX0 - srcX)·scale` and
`(clampY0 - srcY)·scale`. -/
theorem pieceSrcRect_in_bounds (W H : ℕ) (g : Grid) (r c : ℕ)
    (hW : 1 ≤ W) (hH : 1 ≤ H) (hc : c < g.cols) (hr : r < g.rows) :
    0 ≤ (pieceSrcRect W H g r c).clampX0 ∧
      (pieceSrcRect W H g r c).clampX0 + (pieceSrcRect W H g r c).realW ≤ (W : ℚ) ∧
      0 ≤ (pieceSrcRect W H g r c).clampY0 ∧
      (pieceSrcRect W H g r c).clampY0 + (pieceSrcRect W H g r c).realH ≤ (H : ℚ) ∧
      (pieceSrcRect W H g r c).dx =
        ((pieceSrcRect W H g r c).clampX0 -
          ((c : ℚ) * ((W : ℚ) / (g.cols : ℚ)) - (padOf W H g : ℚ) / scaleOf W H)) *
          scaleOf W H ∧
      (pieceSrcRect W H g r c).dy =
        ((pieceSrcRect W H g r c).clampY0 -
          ((r : ℚ) * ((H : ℚ) / (g.rows : ℚ)) - (padOf W H g : ℚ) / scaleOf W H)) *
          scaleOf W H := by
  have hWq : (1 : ℚ) ≤ (W : ℚ) := by exact_mod_cast hW
  have hHq : (1 : ℚ) ≤ (H : ℚ) := by exact_mod_cast hH
  have hcols : (0 : ℚ) < (g.cols : ℚ) := by
    have : 0 < g.cols := lt_of_le_of_lt (Nat.zero_le c) hc
    exact_mod_cast this
  have hrows : (0 : ℚ) < (g.rows : ℚ) := by
    have : 0 < g.rows := lt_of_le_of_lt (Nat.zero_le r) hr
    exact_mod_cast this
  have hsc : 0 < scaleOf W H := scaleOf_pos hW
  have hpad6 : (6 : ℚ) ≤ (padOf W H g : ℚ) := by
    have : (6 : ℤ) ≤ padOf W H g := le_max_left _ _
    exact_mod_cast this
  have hp : (6 : ℚ) ≤ (padOf W H g : ℚ) / scaleOf W H := by
    have hps : (padOf W H g : ℚ) ≤ (padOf W H g : ℚ) / scaleOf W H := by
      rw [le_div_iff₀ hsc]
      calc (padOf W H g : ℚ) * scaleOf W H ≤ (padOf W H g : ℚ) * 1 :=
          mul_le_mul_of_nonneg_left (scaleOf_le_one W H) (by linarith)
        _ = (padOf W H g : ℚ) := mul_one _
    linarith
  have htW : (0 : ℚ) < (W : ℚ) / (g.cols : ℚ) := div_pos (by linarith) hcols
  have htH : (0 : ℚ) < (H : ℚ) / (g.rows : ℚ) := div_pos (by linarith) hrows
  have haW : (0 : ℚ) ≤ (c : ℚ) * ((W : ℚ) / (g.cols : ℚ)) :=
    mul_nonneg (Nat.cast_nonneg c) htW.le
  have haH : (0 : ℚ) ≤ (r : ℚ) * ((H : ℚ) / (g.rows : ℚ)) :=
    mul_nonneg (Nat.cast_nonneg r) htH.le
  have hatW : (c : ℚ) * ((W : ℚ) / (g.cols : ℚ)) + (W : ℚ) / (g.cols : ℚ) ≤ (W : ℚ) := by
    have hc1 : ((c : ℚ) + 1) ≤ (g.cols : ℚ) := by exact_mod_cast hc
    have h2 : ((c : ℚ) + 1) * ((W : ℚ) / (g.cols : ℚ)) ≤
        (g.cols : ℚ) * ((W : ℚ) / (g.cols : ℚ)) :=
      mul_le_mul_of_nonneg_right hc1 htW.le
    have h3 : (g.cols : ℚ) * ((W : ℚ) / (g.cols : ℚ)) = (W : ℚ) := by
      field_simp
    rw [h3] at h2
    nlinarith [h2]
  have hatH : (r : ℚ) * ((H : ℚ) / (g.rows : ℚ)) + (H : ℚ) / (g.rows : ℚ) ≤ (H : ℚ) := by
    have hr1 : ((r : ℚ) + 1) ≤ (g.rows : ℚ) := by exact_mod_cast hr
    have h2 : ((r : ℚ) + 1) * ((H : ℚ) / (g.rows : ℚ)) ≤
        (g.rows : ℚ) * ((H : ℚ) / (g.rows : ℚ)) :=
      mul_le_mul_of_nonneg_right hr1 htH.le
    have h3 : (g.rows : ℚ) * ((H : ℚ) / (g.rows : ℚ)) = (H : ℚ) := by
      field_simp
    rw [h3] at h2
    nlinarith [h2]
  obtain ⟨hX0, hX1, hX2⟩ := clamp_window hWq hp htW haW hatW
  obtain ⟨hY0, hY1, hY2⟩ := clamp_window hHq hp htH haH hatH
  simp only [pieceSrcRect]
  refine ⟨hX0, ?_, hY0, ?_, by trivial, by trivial⟩
  · rw [max_eq_right hX1]
    linarith [hX2]
  · rw [max_eq_right hY1]
    linarith [hY2]

/-- Witness for C9 at a concrete input: tile (0,0) of a 100×80 image on a
2×3 grid. -/
theorem pieceSrcRect_in_bounds_witness :
    0 ≤ (pieceSrcRect 100 80 ⟨2, 3, 6⟩ 0 0).clampX0 ∧
      (pieceSrcRect 100 80 ⟨2, 3, 6⟩ 0 0).clampX0 +
        (pieceSrcRect 100 80 ⟨2, 3, 6⟩ 0 0).realW ≤ ((100 : ℕ) : ℚ) ∧
      0 ≤ (pieceSrcRect 100 80 ⟨2, 3, 6⟩ 0 0).clampY0 ∧
      (pieceSrcRect 100 80 ⟨2, 3, 6⟩ 0 0).clampY0 +
        (pieceSrcRect 100 80 ⟨2, 3, 6⟩ 0 0).realH ≤ ((80 : ℕ) : ℚ) ∧
      (pieceSrcRect 100 80 ⟨2, 3, 6⟩ 0 0).dx =
        ((pieceSrcRect 100 80 ⟨2, 3, 6⟩ 0 0).clampX0 -
          (((0 : ℕ) : ℚ) * (((100 : ℕ) : ℚ) / (((3 : ℕ)) : ℚ)) -
            (padOf 100 80 ⟨2, 3, 6⟩ : ℚ) / scaleOf 100 80)) * scaleOf 100 80 ∧
      (pieceSrcRect 100 80 ⟨2, 3, 6⟩ 0 0).dy =
        ((pieceSrcRect 100 80 ⟨2, 3, 6⟩ 0 0).clampY0 -
          (((0 : ℕ) : ℚ) * (((80 : ℕ) : ℚ) / (((2 : ℕ)) : ℚ)) -
            (padOf 100 80 ⟨2, 3, 6⟩ : ℚ) / scaleOf 100 80)) * scaleOf 100 80 :=
  pieceSrcRect_in_bounds 100 80 ⟨2, 3, 6⟩ 0 0 (by norm_num) (by norm_num)
    (by norm_num) (by norm_num)

lemma negSpec_negSpec (s : EdgeSpec) : negSpec (negSpec s) = s := by
  simp [negSpec]

lemma clamp_neg_unit (k : ℚ) : clamp (-k) (-1) 1 = -clamp k (-1) 1 := by
  rw [clamp, clamp]
  rcases le_total k 1 with h1 | h1 <;> rcases le_total k (-1) with h2 | h2 <;>
    simp [max_def, min_def] <;> split_ifs <;> linarith

lemma clamp_sub_mirror (L v : ℚ) (hL : 0 ≤ L) :
    clamp (L - v) (L * (14/100)) (L * (86/100)) =
      L - clamp v (L * (14/100)) (L * (86/100)) := by
  rw [clamp, clamp]
  rcases le_total v (L * (14/100)) with h1 | h1 <;>
    rcases le_total v (L * (86/100)) with h2 | h2 <;>
    simp [max_def, min_def] <;> split_ifs <;> linarith

lemma hEdgeTrace_shift (sx ex y dy ny tab : ℚ) (spec : EdgeSpec) :
    hEdgeTrace sx ex (y + dy) ny spec tab =
      (hEdgeTrace sx ex y ny spec tab).map (fun q => (q.1, q.2 + dy)) := by
  simp only [hEdgeTrace]
  split_ifs <;>
    · simp only [List.map_cons, List.map_nil, Prod.mk.injEq, List.cons.injEq]
      repeat' apply And.intro
      all_goals first | trivial | ring

lemma vEdgeTrace_eq_swap (x sy ey nx tab : ℚ) (spec : EdgeSpec) :
    vEdgeTrace x sy ey nx spec tab =
      (hEdgeTrace sy ey x nx spec tab).map Prod.swap := by
  simp only [vEdgeTrace, hEdgeTrace]
  split_ifs <;> simp [Prod.swap]

lemma hEdgeTrace_reversal (sx L y ny tab : ℚ) (spec : EdgeSpec) (hL : 0 ≤ L) :
    hEdgeTrace (sx + L) sx y ny (negSpec spec) tab =
      (hEdgeTrace sx (sx + L) y (-ny) spec tab).reverse := by
  have habs1 : |sx - (sx + L)| = L := by
    rw [show sx - (sx + L) = -L from by ring, abs_neg]
    exact abs_of_nonneg hL
  have habs2 : |sx + L - sx| = L := by
    rw [show sx + L - sx = L from by ring]
    exact abs_of_nonneg hL
  by_cases hflat : spec.sign = 0 ∨ L ≤ 1/10000
  · have hflat1 : -spec.sign = 0 ∨ L ≤ 1/10000 := by
      rcases hflat with h | h
      · exact Or.inl (by rw [h]; ring)
      · exact Or.inr h
    rw [hEdgeTrace, hEdgeTrace]
    rw [habs1, habs2]
    rw [if_pos (by simpa [negSpec] using hflat1), if_pos hflat]
    simp
  · have hLpos : 0 < L := by
      rcases not_or.mp hflat with ⟨_, h⟩
      linarith [not_le.mp h]
    have hd1 : ¬ (sx + L ≤ sx) := by linarith
    have hd2 : sx ≤ sx + L := by linarith
    have hflat1 : ¬ (-spec.sign = 0 ∨ L ≤ 1/10000) := by
      rcases not_or.mp hflat with ⟨hs, hl⟩
      exact not_or.mpr ⟨by simpa [neg_eq_zero] using hs, hl⟩
    rw [hEdgeTrace, hEdgeTrace]
    simp only [habs1, habs2, effSkew, if_neg hd1, if_pos hd2, negSpec]
    rw [if_neg hflat1, if_neg hflat]
    rw [clamp_neg_unit]
    have haU : clamp (L * (1/2 + -clamp spec.skewF (-1) 1 * (6/100)) -
        clamp (L * (42/100) * spec.widthF) (L * (34/100)) (L * (50/100)) / 2)
        (L * (14/100)) (L * (86/100)) =
        L - clamp (L * (1/2 + clamp spec.skewF (-1) 1 * (6/100)) +
          clamp (L * (42/100) * spec.widthF) (L * (34/100)) (L * (50/100)) / 2)
          (L * (14/100)) (L * (86/100)) := by
      rw [show L * (1/2 + -clamp spec.skewF (-1) 1 * (6/100)) -
          clamp (L * (42/100) * spec.widthF) (L * (34/100)) (L * (50/100)) / 2 =
          L - (L * (1/2 + clamp spec.skewF (-1) 1 * (6/100)) +
            clamp (L * (42/100) * spec.widthF) (L * (34/100)) (L * (50/100)) / 2)
          from by ring]
      exact clamp_sub_mirror L _ hL
    have hdU : clamp (L * (1/2 + -clamp spec.skewF (-1) 1 * (6/100)) +
        clamp (L * (42/100) * spec.widthF) (L * (34/100)) (L * (50/100)) / 2)
        (L * (14/100)) (L * (86/100)) =
        L - clamp (L * (1/2 + clamp spec.skewF (-1) 1 * (6/100)) -
          clamp (L * (42/100) * spec.widthF) (L * (34/100)) (L * (50/100)) / 2)
          (L * (14/100)) (L * (86/100)) := by
      rw [show L * (1/2 + -clamp spec.skewF (-1) 1 * (6/100)) +
          clamp (L * (42/100) * spec.widthF) (L * (34/100)) (L * (50/100)) / 2 =
          L - (L * (1/2 + clamp spec.skewF (-1) 1 * (6/100)) -
            clamp (L * (42/100) * spec.widthF) (L * (34/100)) (L * (50/100)) / 2)
          from by ring]
      exact clamp_sub_mirror L _ hL
    rw [haU, hdU]
    simp only [List.reverse_cons, List.reverse_nil, List.nil_append, List.cons_append,
      List.append_nil]
    simp only [List.cons.injEq, Prod.mk.injEq]
    repeat' apply And.intro
    all_goals first | trivial | (push_cast; ring)

/-- C1: for every interior boundary of a grid, the two adjoining pieces'
resolved edges are complementary: the signs are exact negations, `widthF`
and `neckF` (and the stored `skewF`) are identical, the skews effectively
used when each piece traces the shared edge (after the
direction-dependent mirror of `hEdgeAbs`/`vEdgeAbs`) are exact negations,
and the two traced boundary curves — each mapped into board coordinates —
coincide as the same point sequence run in opposite directions. -/
theorem interior_edge_complementarity (g : Grid) (E : Edges) (r c : ℕ)
    (tileW tileH tab : ℚ) (hW : 0 < tileW) (hH : 0 < tileH) :
    (r + 1 < g.rows →
      (pieceEdges g E (r + 1) c).top.sign = -(pieceEdges g E r c).bottom.sign ∧
      (pieceEdges g E (r + 1) c).top.widthF = (pieceEdges g E r c).bottom.widthF ∧
      (pieceEdges g E (r + 1) c).top.neckF = (pieceEdges g E r c).bottom.neckF ∧
      (pieceEdges g E (r + 1) c).top.skewF = (pieceEdges g E r c).bottom.skewF ∧
      effSkew tileW 0 (pieceEdges g E r c).bottom.skewF =
        -(effSkew 0 tileW (pieceEdges g E (r + 1) c).top.skewF) ∧
      (hEdgeTrace tileW 0 tileH 1 (pieceEdges g E r c).bottom tab).map
          (fun q => ((c : ℚ) * tileW + q.1, (r : ℚ) * tileH + q.2)) =
        ((hEdgeTrace 0 tileW 0 (-1) (pieceEdges g E (r + 1) c).top tab).map
          (fun q => ((c : ℚ) * tileW + q.1, ((r : ℚ) + 1) * tileH + q.2))).reverse) ∧
    (c + 1 < g.cols →
      (pieceEdges g E r (c + 1)).left.sign = -(pieceEdges g E r c).right.sign ∧
      (pieceEdges g E r (c + 1)).left.widthF = (pieceEdges g E r c).right.widthF ∧
      (pieceEdges g E r (c + 1)).left.neckF = (pieceEdges g E r c).right.neckF ∧
      (pieceEdges g E r (c + 1)).left.skewF = (pieceEdges g E r c).right.skewF ∧
      effSkew tileH 0 (pieceEdges g E r c).right.skewF =
        -(effSkew 0 tileH (pieceEdges g E r (c + 1)).left.skewF) ∧
      (vEdgeTrace tileW 0 tileH 1 (pieceEdges g E r c).right tab).map
          (fun q => ((c : ℚ) * tileW + q.1, (r : ℚ) * tileH + q.2)) =
        ((vEdgeTrace 0 tileH 0 (-1) (pieceEdges g E r (c + 1)).left tab).map
          (fun q => (((c : ℚ) + 1) * tileW + q.1, (r : ℚ) * tileH + q.2))).reverse) := by
  constructor
  · intro hrow
    have hne : r ≠ g.rows - 1 := by omega
    have hbot : (pieceEdges g E r c).bottom = getSpec E.hEdges r c := by
      simp only [pieceEdges]
      rw [if_neg hne]
    have htop : (pieceEdges g E (r + 1) c).top = negSpec (getSpec E.hEdges r c) := by
      simp only [pieceEdges]
      rw [if_neg (Nat.succ_ne_zero r)]
      simp
    rw [hbot, htop]
    refine ⟨rfl, rfl, rfl, rfl, ?_, ?_⟩
    · rw [effSkew, effSkew, if_neg (not_le.mpr hW), if_pos hW.le]
      simp [negSpec]
    · have h1 : hEdgeTrace tileW 0 tileH 1 (getSpec E.hEdges r c) tab =
          (hEdgeTrace 0 tileW tileH (-1) (negSpec (getSpec E.hEdges r c)) tab).reverse := by
        have hr1 := hEdgeTrace_reversal 0 tileW tileH 1 tab
          (negSpec (getSpec E.hEdges r c)) hW.le
        rw [zero_add, negSpec_negSpec] at hr1
        exact hr1
      have h2 : hEdgeTrace 0 tileW tileH (-1) (negSpec (getSpec E.hEdges r c)) tab =
          (hEdgeTrace 0 tileW 0 (-1) (negSpec (getSpec E.hEdges r c)) tab).map
            (fun q => (q.1, q.2 + tileH)) := by
        have hs := hEdgeTrace_shift 0 tileW 0 tileH (-1) tab
          (negSpec (getSpec E.hEdges r c))
        rw [zero_add] at hs
        exact hs
      rw [h1, h2, List.map_reverse, List.map_map]
      congr 1
      apply List.map_congr_left
      intro q _
      simp only [Function.comp, Prod.mk.injEq]
      refine ⟨trivial, ?_⟩
      ring
  · intro hcol
    have hne : c ≠ g.cols - 1 := by omega
    have hright : (pieceEdges g E r c).right = getSpec E.vEdges r c := by
      simp only [pieceEdges]
      rw [if_neg hne]
    have hleft : (pieceEdges g E r (c + 1)).left = negSpec (getSpec E.vEdges r c) := by
      simp only [pieceEdges]
      rw [if_neg (Nat.succ_ne_zero c)]
      simp
    rw [hright, hleft]
    refine ⟨rfl, rfl, rfl, rfl, ?_, ?_⟩
    · rw [effSkew, effSkew, if_neg (not_le.mpr hH), if_pos hH.le]
      simp [negSpec]
    · rw [vEdgeTrace_eq_swap, vEdgeTrace_eq_swap]
      have h1 : hEdgeTrace tileH 0 0 (-1) (negSpec (getSpec E.vEdges r c)) tab =
          (hEdgeTrace 0 tileH 0 1 (getSpec E.vEdges r c) tab).reverse := by
        have hr1 := hEdgeTrace_reversal 0 tileH 0 (-1) tab (getSpec E.vEdges r c) hH.le
        rw [zero_add, neg_neg] at hr1
        exact hr1
      have h2 : hEdgeTrace 0 tileH tileW 1 (getSpec E.vEdges r c) tab =
          (hEdgeTrace 0 tileH 0 1 (getSpec E.vEdges r c) tab).map
            (fun q => (q.1, q.2 + tileW)) := by
        have hs := hEdgeTrace_shift 0 tileH 0 tileW 1 tab (getSpec E.vEdges r c)
        rw [zero_add] at hs
        exact hs
      rw [h1, h2, List.map_map, List.map_map, List.map_map, List.map_reverse,
        List.reverse_reverse]
      apply List.map_congr_left
      intro q _
      simp only [Function.comp, Prod.swap, Prod.mk.injEq]
      refine ⟨?_, trivial⟩
      ring

/-- Concrete edge matrices for a 2×2 grid, used by the C1 witness. -/
def sampleEdges : Edges :=
  { vEdges := [[⟨1, 1, 1, 1/2⟩], [⟨-1, 2, 1, 1/4⟩]]
    hEdges := [[⟨-1, 1, 2, 1/3⟩, ⟨1, 1, 1, 0⟩]] }

/-- Witness for C1 at a concrete input: the 2×2 grid with `sampleEdges`,
boundary below/right of piece (0,0), unit tiles and unit tab depth. -/
theorem interior_edge_complementarity_witness :
    ((pieceEdges ⟨2, 2, 4⟩ sampleEdges (0 + 1) 0).top.sign =
        -(pieceEdges ⟨2, 2, 4⟩ sampleEdges 0 0).bottom.sign ∧
      (pieceEdges ⟨2, 2, 4⟩ sampleEdges (0 + 1) 0).top.widthF =
        (pieceEdges ⟨2, 2, 4⟩ sampleEdges 0 0).bottom.widthF ∧
      (pieceEdges ⟨2, 2, 4⟩ sampleEdges (0 + 1) 0).top.neckF =
        (pieceEdges ⟨2, 2, 4⟩ sampleEdges 0 0).bottom.neckF ∧
      (pieceEdges ⟨2, 2, 4⟩ sampleEdges (0 + 1) 0).top.skewF =
        (pieceEdges ⟨2, 2, 4⟩ sampleEdges 0 0).bottom.skewF ∧
      effSkew 1 0 (pieceEdges ⟨2, 2, 4⟩ sampleEdges 0 0).bottom.skewF =
        -(effSkew 0 1 (pieceEdges ⟨2, 2, 4⟩ sampleEdges (0 + 1) 0).top.skewF) ∧
      (hEdgeTrace 1 0 1 1 (pieceEdges ⟨2, 2, 4⟩ sampleEdges 0 0).bottom 1).map
          (fun q => (((0 : ℕ) : ℚ) * 1 + q.1, ((0 : ℕ) : ℚ) * 1 + q.2)) =
        ((hEdgeTrace 0 1 0 (-1) (pieceEdges ⟨2, 2, 4⟩ sampleEdges (0 + 1) 0).top 1).map
          (fun q => (((0 : ℕ) : ℚ) * 1 + q.1, (((0 : ℕ) : ℚ) + 1) * 1 + q.2))).reverse) ∧
    ((pieceEdges ⟨2, 2, 4⟩ sampleEdges 0 (0 + 1)).left.sign =
        -(pieceEdges ⟨2, 2, 4⟩ sampleEdges 0 0).right.sign ∧
      (pieceEdges ⟨2, 2, 4⟩ sampleEdges 0 (0 + 1)).left.widthF =
        (pieceEdges ⟨2, 2, 4⟩ sampleEdges 0 0).right.widthF ∧
      (pieceEdges ⟨2, 2, 4⟩ sampleEdges 0 (0 + 1)).left.neckF =
        (pieceEdges ⟨2, 2, 4⟩ sampleEdges 0 0).right.neckF ∧
      (pieceEdges ⟨2, 2, 4⟩ sampleEdges 0 (0 + 1)).left.skewF =
        (pieceEdges ⟨2, 2, 4⟩ sampleEdges 0 0).right.skewF ∧
      effSkew 1 0 (pieceEdges ⟨2, 2, 4⟩ sampleEdges 0 0).right.skewF =
        -(effSkew 0 1 (pieceEdges ⟨2, 2, 4⟩ sampleEdges 0 (0 + 1)).left.skewF) ∧
      (vEdgeTrace 1 0 1 1 (pieceEdges ⟨2, 2, 4⟩ sampleEdges 0 0).right 1).map
          (fun q => (((0 : ℕ) : ℚ) * 1 + q.1, ((0 : ℕ) : ℚ) * 1 + q.2)) =
        ((vEdgeTrace 0 1 0 (-1) (pieceEdges ⟨2, 2, 4⟩ sampleEdges 0 (0 + 1)).left 1).map
          (fun q => ((((0 : ℕ) : ℚ) + 1) * 1 + q.1, ((0 : ℕ) : ℚ) * 1 + q.2))).reverse) :=
  ⟨(interior_edge_complementarity ⟨2, 2, 4⟩ sampleEdges 0 0 1 1 1 (by norm_num)
      (by norm_num)).1 (by norm_num),
    (interior_edge_complementarity ⟨2, 2, 4⟩ sampleEdges 0 0 1 1 1 (by norm_num)
      (by norm_num)).2 (by norm_num)⟩

end Puzzle
